import Mathlib

/-!
Verification development for the pycelerograph CSV ingestion and aggregation
core (src/celerograph.py).  The Python source is embedded shallowly:

* `Column` embeds the `Column` enum together with its display labels;
  `Column.from_name` / `Column.is_name` embed the case-insensitive catalog
  lookup (linear scan over the members in declaration order).
* `read_number` embeds the inner helper of `read_results`: try an integer
  parse first, fall back to a floating-point parse; floating-point values
  are modelled exactly as rationals (the cells appearing in the claims are
  short decimal literals, which Python floats represent and compare exactly
  the same way as their rational values relative to one another here).
* `read_results` embeds the row loop of `read_results`: the first row is the
  header, subsequent rows are skipped when both column 0 and column 1 match
  known measure labels, otherwise classified into Group / Experiment and
  appended measure by measure, with the series-length validation afterwards.
  Python's in-place dict mutation is modelled by insertion-ordered
  association lists (`alist_lookup` / `alist_set`) with explicit write-back;
  a raised exception (AssertionError / IndexError / ValueError / KeyError)
  is modelled as `none`.
* `collect_experiments` embeds the aggregator of the same name.
-/

set_option maxHeartbeats 1000000
set_option linter.unusedVariables false

namespace Celero

/-- The measure catalog: columns of a Celero benchmark results report. -/
inductive Column where
  | group
  | experiment
  | problem_space
  | samples
  | iterations
  | failure
  | baseline
  | iteration_time
  | iteration_per_sec
  | min_time
  | max_time
  | mean_time
  | variance
  | stddev
  | skweness
  | kurtosis
  | zscore
  deriving DecidableEq, Fintype

/-- Canonical display label of each column (the enum member values). -/
def Column.value : Column → String
  | .group => "Group"
  | .experiment => "Experiment"
  | .problem_space => "Problem space"
  | .samples => "Samples"
  | .iterations => "Iterations"
  | .failure => "Failure"
  | .baseline => "Baseline"
  | .iteration_time => "us/Iteration"
  | .iteration_per_sec => "Iterations/sec"
  | .min_time => "Min (us)"
  | .max_time => "Max (us)"
  | .mean_time => "Mean (us)"
  | .variance => "Variance"
  | .stddev => "Standard Deviation"
  | .skweness => "Skewness"
  | .kurtosis => "Kurtosis"
  | .zscore => "Z Score"

/-- The members of the enum in declaration order (Python `__members__`). -/
def Column.members : List Column :=
  [.group, .experiment, .problem_space, .samples, .iterations, .failure,
   .baseline, .iteration_time, .iteration_per_sec, .min_time, .max_time,
   .mean_time, .variance, .stddev, .skweness, .kurtosis, .zscore]

/-- Case-insensitive string comparison, `a.lower() == b.lower()` in Python. -/
def lowerEqStr (a b : String) : Bool :=
  a.toList.map Char.toLower == b.toList.map Char.toLower

/-- Embeds `Column.from_name`: first member whose label matches case-insensitively,
`none` when the loop falls through. -/
def Column.from_name (column_name : String) : Option Column :=
  Column.members.find? (fun member => lowerEqStr member.value column_name)

/-- Embeds `Column.is_name`: whether some member label matches case-insensitively. -/
def Column.is_name (column_name : String) : Bool :=
  Column.members.any (fun member => lowerEqStr member.value column_name)

/-! ### Numeric cell parsing (`read_number`) -/

/-- A parsed numeric cell: Python `int` or `float` (exact decimal model). -/
inductive Value where
  | intV (n : Int)
  | floatV (q : ℚ)
  deriving DecidableEq

/-- Numeric value of a digit run (most significant first). -/
def digitsVal (cs : List Char) : Nat :=
  cs.foldl (fun a c => a * 10 + (c.toNat - 48)) 0

/-- A nonempty all-digit run. -/
def allDigits (cs : List Char) : Bool :=
  !cs.isEmpty && cs.all Char.isDigit

/-- Strip an optional leading sign; `true` means negative. -/
def splitSign : List Char → Bool × List Char
  | '-' :: cs => (true, cs)
  | '+' :: cs => (false, cs)
  | cs => (false, cs)

/-- Parse a string as a Python `int`: optional sign followed by digits. -/
def parseInt? (s : String) : Option Int :=
  let sc := splitSign s.toList
  if allDigits sc.2 then
    some (if sc.1 then -(digitsVal sc.2 : Int) else (digitsVal sc.2 : Int))
  else none

/-- Mantissa of a float: digits, digits.digits, digits., or .digits. -/
def parseMantissa? (cs : List Char) : Option ℚ :=
  let ip := cs.takeWhile (fun c => c != '.')
  match cs.dropWhile (fun c => c != '.') with
  | [] => if allDigits ip then some ((digitsVal ip : ℚ)) else none
  | _ :: fp =>
    if (ip.isEmpty || ip.all Char.isDigit) && (fp.isEmpty || fp.all Char.isDigit)
        && !(ip.isEmpty && fp.isEmpty) && fp.all (fun c => c != '.') then
      some ((digitsVal ip : ℚ) + (digitsVal fp : ℚ) / (10 : ℚ) ^ fp.length)
    else none

/-- Parse a string as a Python `float` (finite decimal forms with an optional
exponent; the special forms inf/nan never occur in benchmark cells). -/
def parseFloat? (s : String) : Option ℚ :=
  let sc := splitSign s.toList
  let mpart := sc.2.takeWhile (fun c => c != 'e' && c != 'E')
  match parseMantissa? mpart with
  | none => none
  | some m =>
    let q :=
      match sc.2.dropWhile (fun c => c != 'e' && c != 'E') with
      | [] => some m
      | _ :: ex =>
        let esc := splitSign ex
        if allDigits esc.2 then
          some (if esc.1 then m / (10 : ℚ) ^ digitsVal esc.2
                else m * (10 : ℚ) ^ digitsVal esc.2)
        else none
    match q with
    | none => none
    | some q => some (if sc.1 then -q else q)

/-- Embeds `read_number`: try `int(s)` first, fall back to `float(s)`; a string that
is neither is a `ValueError`, modelled as `none`. -/
def read_number (string_value : String) : Option Value :=
  match parseInt? string_value with
  | some n => some (.intV n)
  | none =>
    match parseFloat? string_value with
    | some q => some (.floatV q)
    | none => none

/-! ### The hierarchy: insertion-ordered association lists -/

/-- A Python dict is modelled as an insertion-ordered association list. -/
def alist_lookup {α β : Type} [DecidableEq α] : List (α × β) → α → Option β
  | [], _ => none
  | p :: rest, k => if p.fst = k then some p.snd else alist_lookup rest k

/-- Python `d[k] = v`: replace the first entry with key `k` in place, or append a new
entry at the end (Python dict insertion order). -/
def alist_set {α β : Type} [DecidableEq α] : List (α × β) → α → β → List (α × β)
  | [], k, v => [(k, v)]
  | p :: rest, k, v =>
    if p.fst = k then (k, v) :: rest else p :: alist_set rest k v

/-- Python `row[j]` access; `none` models an `IndexError`. -/
def nth {α : Type} : List α → Nat → Option α
  | [], _ => none
  | a :: _, 0 => some a
  | _ :: l, n + 1 => nth l n

/-- An Experiment: dict from `Column` to its series of values. -/
abbrev Experiment := List (Column × List Value)

/-- A Group: source file basename plus the dict of experiments. -/
structure GroupData where
  file : String
  experiments : List (String × Experiment)
  deriving DecidableEq

/-- The result set: dict from group name to group data. -/
abbrev ResultSet := List (String × GroupData)

/-- Python `enumerate(header[2:], 2)`. -/
def enumMeasures : Nat → List String → List (Nat × String)
  | _, [] => []
  | n, a :: l => (n, a) :: enumMeasures (n + 1) l

/-- Python `if measure not in experiment: experiment[measure] = []`. -/
def withMeasure (experiment : Experiment) (measure : Column) : Experiment :=
  if (alist_lookup experiment measure).isSome then experiment
  else alist_set experiment measure []

/-- One step of the measure loop of `read_results`: resolve the measure (the
`assert measure is not None`), create its series if absent, and append the
parsed cell `row[j]`. -/
def appendMeasure (row : List String) (experiment : Experiment)
    (jm : Nat × String) : Option Experiment :=
  match Column.from_name jm.snd with
  | none => none
  | some measure =>
    match alist_lookup (withMeasure experiment measure) measure with
    | none => none
    | some series =>
      match nth row jm.fst with
      | none => none
      | some cell =>
        match read_number cell with
        | none => none
        | some v =>
          some (alist_set (withMeasure experiment measure) measure
            (series ++ [v]))

/-- The measure loop of `read_results` over `enumerate(header[2:], 2)`. -/
def appendRowMeasures (row : List String) :
    Experiment → List (Nat × String) → Option Experiment
  | experiment, [] => some experiment
  | experiment, jm :: rest =>
    match appendMeasure row experiment jm with
    | none => none
    | some experiment1 => appendRowMeasures row experiment1 rest

/-- The validation loop: `len(experiment[Column.from_name(name)])` for each
header measure name, `none` on an unresolved name or a `KeyError`. -/
def measureSizes (experiment : Experiment) : List String → Option (List Nat)
  | [] => some []
  | name :: rest =>
    match Column.from_name name with
    | none => none
    | some measure =>
      match alist_lookup experiment measure with
      | none => none
      | some series =>
        match measureSizes experiment rest with
        | none => none
        | some sizes => some (series.length :: sizes)

/-- Python `series_sizes[1:] == series_sizes[:-1]`: all sizes equal. -/
def sizesOk (sizes : List Nat) : Bool :=
  sizes.drop 1 == sizes.dropLast

/-- Python `if group_name not in data: data[group_name] = ...` with the source file
basename and an empty experiments dict. -/
def ensureGroup (fileBase : String) (data : ResultSet) (group_name : String) :
    ResultSet :=
  if (alist_lookup data group_name).isSome then data
  else alist_set data group_name ⟨fileBase, []⟩

/-- Python `if experiment_name not in experiments: ...` setting
with an empty measure dict. -/
def ensureExperiment (experiments : List (String × Experiment))
    (experiment_name : String) : List (String × Experiment) :=
  if (alist_lookup experiments experiment_name).isSome then experiments
  else alist_set experiments experiment_name []

/-- The data-row branch of the row loop: create the group and experiment
entries if absent, append every measure cell, validate the series sizes. -/
def processDataRow (fileBase : String) (header : List String)
    (data : ResultSet) (row : List String) (group_name : String) :
    Option ResultSet :=
  match alist_lookup (ensureGroup fileBase data group_name) group_name with
  | none => none
  | some gd =>
    match nth row 1 with
    | none => none
    | some experiment_name =>
      match alist_lookup (ensureExperiment gd.experiments experiment_name)
          experiment_name with
      | none => none
      | some experiment =>
        match appendRowMeasures row experiment
            (enumMeasures 2 (header.drop 2)) with
        | none => none
        | some experiment1 =>
          match measureSizes experiment1 (header.drop 2) with
          | none => none
          | some sizes =>
            if sizesOk sizes then
              some (alist_set (ensureGroup fileBase data group_name) group_name
                ⟨gd.file,
                 alist_set (ensureExperiment gd.experiments experiment_name)
                   experiment_name experiment1⟩)
            else none

/-- One iteration of the row loop of `read_results` (for a non-header row):
`row[0]` is read, then the header-repeat test (with Python's short-circuit
`and`, so `row[1]` is only read when `row[0]` matched), then the data-row
branch. -/
def processRow (fileBase : String) (header : List String) (data : ResultSet)
    (row : List String) : Option ResultSet :=
  match nth row 0 with
  | none => none
  | some c0 =>
    if Column.is_name c0 then
      match nth row 1 with
      | none => none
      | some c1 =>
        if Column.is_name c1 then some data
        else processDataRow fileBase header data row c0
    else processDataRow fileBase header data row c0

/-- The row loop of `read_results` over the non-header rows. -/
def foldRows (fileBase : String) (header : List String) :
    ResultSet → List (List String) → Option ResultSet
  | data, [] => some data
  | data, row :: rest =>
    match processRow fileBase header data row with
    | none => none
    | some data1 => foldRows fileBase header data1 rest

/-- Embeds `read_results`: the first row is the header, the remaining rows are fed
through the row loop starting from the empty dict.  `rows` is the sequence of
field lists the `csv.reader` yields; a raised exception is `none`. -/
def read_results (fileBase : String) (rows : List (List String)) :
    Option ResultSet :=
  match rows with
  | [] => some []
  | header :: body => foldRows fileBase header [] body

/-! ### The aggregator (`collect_experiments`) -/

/-- The dict built by `collect_experiments`, with all three keys present. -/
structure Aggregated where
  sizes : List Value
  experiments : List String
  results : List (List Value)
  deriving DecidableEq

/-- The dict under construction inside the loop: each key may be absent. -/
structure AggState where
  sizes : Option (List Value)
  experiments : List String
  results : List (List Value)

/-- The loop of `collect_experiments`: look up the problem-space series (a
`KeyError` is `none`), assert its length against the measure's series, set
`sizes` on the first iteration, and append the name and the series. -/
def collectLoop (measure : Column) :
    AggState → List (String × Experiment) → Option AggState
  | st, [] => some st
  | st, (experiment_name, experiment) :: rest =>
    match alist_lookup experiment Column.problem_space with
    | none => none
    | some problem_space =>
      match alist_lookup experiment measure with
      | none => none
      | some mseries =>
        if problem_space.length = mseries.length then
          collectLoop measure
            ⟨some (st.sizes.getD problem_space),
             st.experiments ++ [experiment_name],
             st.results ++ [mseries]⟩ rest
        else none

/-- Embeds `collect_experiments`: run the loop, then the two final asserts; reading
`data['sizes']` or `data['results'][0]` of an empty dict is a `KeyError`. -/
def collect_experiments (group_name : String)
    (experiments : List (String × Experiment)) (measure : Column) :
    Option Aggregated :=
  match collectLoop measure ⟨none, [], []⟩ experiments with
  | none => none
  | some st =>
    match st.sizes with
    | none => none
    | some sizes =>
      match st.results.head? with
      | none => none
      | some first =>
        if sizes.length = first.length ∧
            st.experiments.length = st.results.length then
          some ⟨sizes, st.experiments, st.results⟩
        else none

/-! ### Concrete inputs used by the claims -/

/-- The header of the end-to-end example. -/
def demoHdr : List String :=
  ["Group", "Experiment", "Problem space", "Baseline", "Mean (us)"]

/-- The four data rows of the end-to-end example. -/
def demoBody : List (List String) :=
  [["G1", "ExpA", "10", "1.0", "5.5"],
   ["G1", "ExpA", "20", "1.0", "9.9"],
   ["G1", "ExpB", "10", "2.0", "4.0"],
   ["G1", "ExpB", "20", "2.0", "8.0"]]

/-- The full input of the end-to-end example. -/
def demoRows : List (List String) := demoHdr :: demoBody

/-- Expected experiment ExpA after parsing the example. -/
def demoExpA : Experiment :=
  [(Column.problem_space, [Value.intV 10, Value.intV 20]),
   (Column.baseline, [Value.floatV 1, Value.floatV 1]),
   (Column.mean_time, [Value.floatV (11 / 2), Value.floatV (99 / 10)])]

/-- Expected experiment ExpB after parsing the example. -/
def demoExpB : Experiment :=
  [(Column.problem_space, [Value.intV 10, Value.intV 20]),
   (Column.baseline, [Value.floatV 2, Value.floatV 2]),
   (Column.mean_time, [Value.floatV 4, Value.floatV 8])]

/-- Expected experiments dict of group G1. -/
def demoExperiments : List (String × Experiment) :=
  [("ExpA", demoExpA), ("ExpB", demoExpB)]

/-- Expected result set of the end-to-end example. -/
def demoParsed : ResultSet :=
  [("G1", ⟨"demo.csv", demoExperiments⟩)]

/-! ### Predicates used to state the claims -/

/-- A header-repeat row: both column 0 and column 1 exist and match known
measure labels case-insensitively (the skip condition of the row loop). -/
def isHeaderRepeat (row : List String) : Bool :=
  match nth row 0, nth row 1 with
  | some a, some b => Column.is_name a && Column.is_name b
  | _, _ => false

/-- Relation `HRInterleave base extra`: `extra` is `base` with some header-repeat rows
inserted at arbitrary positions. -/
inductive HRInterleave : List (List String) → List (List String) → Prop
  | nil : HRInterleave [] []
  | keep (r : List String) {l1 l2 : List (List String)} :
      HRInterleave l1 l2 → HRInterleave (r :: l1) (r :: l2)
  | put (r : List String) {l1 l2 : List (List String)} :
      isHeaderRepeat r = true → HRInterleave l1 l2 →
      HRInterleave l1 (r :: l2)

/-- No two entries of an association list share a key. -/
def keysNodup {α β : Type} [DecidableEq α] : List (α × β) → Prop
  | [] => True
  | p :: rest => (∀ q ∈ rest, q.fst ≠ p.fst) ∧ keysNodup rest

/-- Every key of the experiment resolves from some header measure name. -/
def expKeysOk (header : List String) (exp : Experiment) : Prop :=
  keysNodup exp ∧
    ∀ p ∈ exp, ∃ name ∈ header.drop 2, Column.from_name name = some p.fst

/-- All series of the experiment have the same length. -/
def eqLengths (exp : Experiment) : Prop :=
  ∀ p ∈ exp, ∀ q ∈ exp, (Prod.snd p).length = (Prod.snd q).length

/-- The parse invariant: every experiment of every group has well-formed keys
and equal-length series. -/
def dataOk (header : List String) (data : ResultSet) : Prop :=
  ∀ g ∈ data, ∀ e ∈ (Prod.snd g).experiments,
    expKeysOk header (Prod.snd e) ∧ eqLengths (Prod.snd e)

/-! ### Further concrete inputs -/

/-- A header-repeat row (both cells are known measure labels). -/
def hrRow : List String := ["Baseline", "Baseline"]

/-- A header whose third column label is unknown to the catalog. -/
def bogusHdr : List String := ["Group", "Experiment", "Bogus Column"]

/-- Two experiments whose problem-space series have different lengths; each
one is internally consistent, so the aggregator accepts both. -/
def expsMismatch : List (String × Experiment) :=
  [("A", [(Column.problem_space, [Value.intV 10, Value.intV 20]),
          (Column.baseline, [Value.floatV 1, Value.floatV 1])]),
   ("B", [(Column.problem_space, [Value.intV 10, Value.intV 20, Value.intV 30]),
          (Column.baseline, [Value.floatV 2, Value.floatV 2, Value.floatV 2])])]

/-- The aggregate the code returns on `expsMismatch`: `sizes` has length 2
while the second value series has length 3. -/
def aggMismatch : Aggregated :=
  ⟨[Value.intV 10, Value.intV 20], ["A", "B"],
   [[Value.floatV 1, Value.floatV 1],
    [Value.floatV 2, Value.floatV 2, Value.floatV 2]]⟩

/-- The aggregate of the end-to-end example for Measure = Baseline. -/
def demoAgg : Aggregated :=
  ⟨[Value.intV 10, Value.intV 20], ["ExpA", "ExpB"],
   [[Value.floatV 1, Value.floatV 1], [Value.floatV 2, Value.floatV 2]]⟩

/-! ### Association-list lemmas -/

theorem alist_lookup_set_self {α β : Type} [DecidableEq α]
    (l : List (α × β)) (k : α) (v : β) :
    alist_lookup (alist_set l k v) k = some v := by
  induction l with
  | nil => simp [alist_set, alist_lookup]
  | cons p rest ih =>
    by_cases h : p.fst = k
    · simp [alist_set, h, alist_lookup]
    · simp [alist_set, h, alist_lookup, ih]

theorem mem_alist_set {α β : Type} [DecidableEq α]
    (l : List (α × β)) (k : α) (v : β) (p : α × β)
    (hp : p ∈ alist_set l k v) : p = (k, v) ∨ p ∈ l := by
  induction l with
  | nil => simpa [alist_set] using hp
  | cons q rest ih =>
    by_cases h : q.fst = k
    · simp only [alist_set] at hp
      rw [if_pos h] at hp
      rcases List.mem_cons.1 hp with h1 | h1
      · exact Or.inl h1
      · exact Or.inr (List.mem_cons_of_mem _ h1)
    · simp only [alist_set] at hp
      rw [if_neg h] at hp
      rcases List.mem_cons.1 hp with h1 | h1
      · exact Or.inr (by simp [h1])
      · rcases ih h1 with h2 | h2
        · exact Or.inl h2
        · exact Or.inr (List.mem_cons_of_mem _ h2)

theorem alist_lookup_mem {α β : Type} [DecidableEq α]
    (l : List (α × β)) (k : α) (v : β)
    (h : alist_lookup l k = some v) : (k, v) ∈ l := by
  induction l with
  | nil => simp [alist_lookup] at h
  | cons p rest ih =>
    by_cases hk : p.fst = k
    · simp only [alist_lookup, if_pos hk] at h
      have hpv : p = (k, v) := by
        cases p with
        | mk a b =>
          simp only at hk
          simp only [Option.some.injEq] at h
          simp [hk, h]
      simp [hpv]
    · simp only [alist_lookup, if_neg hk] at h
      exact List.mem_cons_of_mem _ (ih h)

theorem keysNodup_lookup {α β : Type} [DecidableEq α]
    (l : List (α × β)) (hnd : keysNodup l) (k : α) (v : β)
    (hm : (k, v) ∈ l) : alist_lookup l k = some v := by
  induction l with
  | nil => simp at hm
  | cons p rest ih =>
    rcases List.mem_cons.1 hm with h1 | h1
    · rw [← h1]
      simp [alist_lookup]
    · have hne : p.fst ≠ k := by
        intro hcontra
        exact hnd.1 (k, v) h1 (by simp [hcontra])
      simp only [alist_lookup, if_neg (fun hh => hne hh)]
      exact ih hnd.2 h1

theorem keysNodup_set {α β : Type} [DecidableEq α]
    (l : List (α × β)) (k : α) (v : β)
    (hnd : keysNodup l) : keysNodup (alist_set l k v) := by
  induction l with
  | nil => simp [alist_set, keysNodup]
  | cons p rest ih =>
    by_cases h : p.fst = k
    · simp only [alist_set, if_pos h]
      refine ⟨?_, hnd.2⟩
      intro q hq
      have := hnd.1 q hq
      simpa [h] using this
    · simp only [alist_set, if_neg h]
      refine ⟨?_, ih hnd.2⟩
      intro q hq
      rcases mem_alist_set rest k v q hq with h1 | h1
      · simp [h1]
        exact fun hh => h hh.symm
      · exact hnd.1 q h1

/-! ### nth and enumMeasures lemmas -/

theorem nth_eq_none {α : Type} (l : List α) (n : Nat) (h : l.length ≤ n) :
    nth l n = none := by
  induction l generalizing n with
  | nil => simp [nth]
  | cons a t ih =>
    cases n with
    | zero => simp at h
    | succ m => simpa [nth] using ih m (by simpa using h)

theorem nth_lt {α : Type} (l : List α) (n : Nat) (h : n < l.length) :
    ∃ a, nth l n = some a := by
  induction l generalizing n with
  | nil => simp at h
  | cons a t ih =>
    cases n with
    | zero => exact ⟨a, rfl⟩
    | succ m => exact ih m (by simpa using h)

theorem nth_some_lt {α : Type} (l : List α) (n : Nat) (a : α)
    (h : nth l n = some a) : n < l.length := by
  induction l generalizing n with
  | nil => simp [nth] at h
  | cons b t ih =>
    cases n with
    | zero => simp
    | succ m =>
      simp only [nth] at h
      simpa using Nat.succ_lt_succ (ih m h)

theorem nth_drop {α : Type} (n m : Nat) (l : List α) :
    nth (l.drop n) m = nth l (n + m) := by
  induction n generalizing l with
  | zero => simp
  | succ k ih =>
    cases l with
    | nil => simp [nth]
    | cons a t =>
      have : k + 1 + m = (k + m) + 1 := by omega
      rw [List.drop_succ_cons, ih t, this]
      rfl

theorem mem_enumMeasures {n : Nat} {l : List String} {j : Nat} {name : String}
    (h : (j, name) ∈ enumMeasures n l) : name ∈ l := by
  induction l generalizing n with
  | nil => simp [enumMeasures] at h
  | cons a t ih =>
    simp only [enumMeasures, List.mem_cons] at h
    rcases h with h | h
    · simp [(Prod.mk.injEq .. ▸ h).2]
    · exact List.mem_cons_of_mem _ (ih h)

theorem enumMeasures_mem {l : List String} {i : Nat} {name : String} (n : Nat)
    (h : nth l i = some name) : (n + i, name) ∈ enumMeasures n l := by
  induction l generalizing n i with
  | nil => simp [nth] at h
  | cons a t ih =>
    cases i with
    | zero =>
      simp only [nth, Option.some.injEq] at h
      simp [enumMeasures, h]
    | succ m =>
      simp only [nth] at h
      have := ih (n + 1) h
      simp only [enumMeasures, List.mem_cons]
      right
      have harith : n + (m + 1) = (n + 1) + m := by omega
      rw [harith]
      exact this

/-! ### sizesOk and measureSizes lemmas -/

theorem sizesOk_iff (l : List Nat) : sizesOk l = true ↔ l.drop 1 = l.dropLast := by
  simp [sizesOk]

theorem sizesOk_all_eq (l : List Nat) (h : sizesOk l = true) :
    ∀ a ∈ l, ∀ b ∈ l, a = b := by
  induction l with
  | nil => intro a ha; simp at ha
  | cons x t ih =>
    cases t with
    | nil =>
      intro a ha b hb
      simp at ha hb
      rw [ha, hb]
    | cons y s =>
      have h' := (sizesOk_iff _).1 h
      rw [show (x :: y :: s).drop 1 = y :: s from rfl,
        show (x :: y :: s).dropLast = x :: (y :: s).dropLast from rfl] at h'
      obtain ⟨hxy, hrest⟩ := List.cons_eq_cons.1 h'
      have hrec : sizesOk (y :: s) = true := by
        rw [sizesOk_iff]
        exact hrest
      intro a ha b hb
      have key : ∀ c ∈ x :: y :: s, c = y := by
        intro c hc
        rcases List.mem_cons.1 hc with rfl | hc'
        · exact hxy.symm
        · exact ih hrec c hc' y (List.mem_cons_self _ _)
      rw [key a ha, key b hb]

theorem measureSizes_mem (exp : Experiment) (names : List String)
    (sizes : List Nat) (h : measureSizes exp names = some sizes)
    (name : String) (hn : name ∈ names) :
    ∃ m s, Column.from_name name = some m ∧ alist_lookup exp m = some s ∧
      s.length ∈ sizes := by
  induction names generalizing sizes with
  | nil => simp at hn
  | cons a rest ih =>
    rcases hfn : Column.from_name a with _ | m
    · simp [measureSizes, hfn] at h
    · rcases hlk : alist_lookup exp m with _ | s
      · simp [measureSizes, hfn, hlk] at h
      · rcases hms : measureSizes exp rest with _ | sz
        · simp [measureSizes, hfn, hlk, hms] at h
        · simp only [measureSizes, hfn, hlk, hms, Option.some.injEq] at h
          rcases List.mem_cons.1 hn with rfl | hn'
          · exact ⟨m, s, hfn, hlk, by rw [← h]; exact List.mem_cons_self _ _⟩
          · obtain ⟨m', s', h1, h2, h3⟩ := ih sz hms hn'
            exact ⟨m', s', h1, h2, by rw [← h]; exact List.mem_cons_of_mem _ h3⟩

/-! ### Header-repeat rows are skipped without touching the state -/

theorem processRow_skip (fileBase : String) (header : List String)
    (data : ResultSet) (row : List String)
    (h : isHeaderRepeat row = true) :
    processRow fileBase header data row = some data := by
  unfold isHeaderRepeat at h
  rcases h0 : nth row 0 with _ | a <;> rw [h0] at h
  · simp at h
  · rcases h1 : nth row 1 with _ | b <;> rw [h1] at h
    · simp at h
    · simp only [Bool.and_eq_true] at h
      simp [processRow, h0, h1, h.1, h.2]

theorem foldRows_interleave (fileBase : String) (header : List String)
    {body1 body2 : List (List String)} (h : HRInterleave body1 body2) :
    ∀ data, foldRows fileBase header data body2 =
      foldRows fileBase header data body1 := by
  induction h with
  | nil => intro data; rfl
  | keep r h ih =>
    intro data
    simp only [foldRows]
    cases hp : processRow fileBase header data r with
    | none => rfl
    | some d1 => exact ih d1
  | put r hr h ih =>
    intro data
    simp only [foldRows]
    rw [processRow_skip _ _ _ _ hr]
    exact ih data

theorem HRInterleave_refl (l : List (List String)) : HRInterleave l l := by
  induction l with
  | nil => exact .nil
  | cons r t ih => exact .keep r ih

/-! ### Rows on which the row loop always fails -/

theorem appendMeasure_none_of_from_name (row : List String) (exp : Experiment)
    (jm : Nat × String) (h : Column.from_name jm.snd = none) :
    appendMeasure row exp jm = none := by
  simp [appendMeasure, h]

theorem appendMeasure_none_of_nth (row : List String) (exp : Experiment)
    (jm : Nat × String) (h : nth row jm.fst = none) :
    appendMeasure row exp jm = none := by
  unfold appendMeasure
  rcases hfn : Column.from_name jm.snd with _ | m
  · rfl
  · cases hlk : alist_lookup (withMeasure exp m) m with
    | none => simp [hlk]
    | some series => simp [hlk, h]

theorem appendRowMeasures_none (row : List String)
    (jms : List (Nat × String)) (jm : Nat × String) (hjm : jm ∈ jms)
    (hf : ∀ exp : Experiment, appendMeasure row exp jm = none) :
    ∀ exp, appendRowMeasures row exp jms = none := by
  induction jms with
  | nil => simp at hjm
  | cons a rest ih =>
    intro exp
    rcases List.mem_cons.1 hjm with rfl | h1
    · simp [appendRowMeasures, hf exp]
    · simp only [appendRowMeasures]
      cases hp : appendMeasure row exp a with
      | none => rfl
      | some e1 => exact ih h1 e1

theorem ensureGroup_lookup (fileBase : String) (data : ResultSet)
    (group_name : String) :
    ∃ gd, alist_lookup (ensureGroup fileBase data group_name) group_name =
      some gd := by
  unfold ensureGroup
  by_cases h : (alist_lookup data group_name).isSome
  · rw [if_pos h]
    exact Option.isSome_iff_exists.1 h
  · rw [if_neg h]
    exact ⟨_, alist_lookup_set_self _ _ _⟩

theorem ensureExperiment_lookup (experiments : List (String × Experiment))
    (experiment_name : String) :
    ∃ e, alist_lookup (ensureExperiment experiments experiment_name)
      experiment_name = some e := by
  unfold ensureExperiment
  by_cases h : (alist_lookup experiments experiment_name).isSome
  · rw [if_pos h]
    exact Option.isSome_iff_exists.1 h
  · rw [if_neg h]
    exact ⟨_, alist_lookup_set_self _ _ _⟩

/-- A non-header-repeat row on which the measure loop always fails makes the
whole row fail, whatever the state. -/
theorem processRow_none_of_measures (fileBase : String) (header : List String)
    (data : ResultSet) (row : List String)
    (hhr : isHeaderRepeat row = false)
    (hmf : ∀ exp, appendRowMeasures row exp
      (enumMeasures 2 (header.drop 2)) = none) :
    processRow fileBase header data row = none := by
  have hpd : ∀ c0, processDataRow fileBase header data row c0 = none := by
    intro c0
    obtain ⟨gd, hgd⟩ := ensureGroup_lookup fileBase data c0
    rcases h1 : nth row 1 with _ | c1
    · simp [processDataRow, hgd, h1]
    · obtain ⟨e, he⟩ := ensureExperiment_lookup gd.experiments c1
      simp [processDataRow, hgd, h1, he, hmf e]
  rcases h0 : nth row 0 with _ | c0
  · simp [processRow, h0]
  · by_cases hn0 : Column.is_name c0
    · rcases h1 : nth row 1 with _ | c1
      · simp [processRow, h0, hn0, h1]
      · have hn1 : Column.is_name c1 = false := by
          unfold isHeaderRepeat at hhr
          rw [h0, h1] at hhr
          simpa [hn0] using hhr
        simp [processRow, h0, hn0, h1, hn1, hpd c0]
    · simp [processRow, h0, hn0, hpd c0]

/-- A row with fewer than two fields always fails, whatever the state. -/
theorem processRow_none_of_short2 (fileBase : String) (header : List String)
    (data : ResultSet) (row : List String) (h : row.length < 2) :
    processRow fileBase header data row = none := by
  have h1 : nth row 1 = none := nth_eq_none _ _ (by omega)
  rcases h0 : nth row 0 with _ | c0
  · simp [processRow, h0]
  · have hpd : processDataRow fileBase header data row c0 = none := by
      obtain ⟨gd, hgd⟩ := ensureGroup_lookup fileBase data c0
      simp [processDataRow, hgd, h1]
    by_cases hn0 : Column.is_name c0
    · simp [processRow, h0, hn0, h1]
    · simp [processRow, h0, hn0, hpd]

/-! ### The parse invariant: equal series lengths in every experiment -/

theorem withMeasure_expKeysOk (header : List String) (exp : Experiment)
    (m : Column) (name : String) (hname : name ∈ header.drop 2)
    (hfn : Column.from_name name = some m) (hok : expKeysOk header exp) :
    expKeysOk header (withMeasure exp m) := by
  unfold withMeasure
  by_cases h : (alist_lookup exp m).isSome
  · rw [if_pos h]; exact hok
  · rw [if_neg h]
    refine ⟨keysNodup_set _ _ _ hok.1, ?_⟩
    intro p hp
    rcases mem_alist_set _ _ _ _ hp with rfl | hp1
    · exact ⟨name, hname, hfn⟩
    · exact hok.2 p hp1

theorem appendMeasure_expKeysOk (header row : List String)
    (exp exp1 : Experiment) (jm : Nat × String)
    (hname : jm.snd ∈ header.drop 2)
    (h : appendMeasure row exp jm = some exp1)
    (hok : expKeysOk header exp) : expKeysOk header exp1 := by
  rcases hfn : Column.from_name jm.snd with _ | m
  · simp [appendMeasure, hfn] at h
  · rcases hlk : alist_lookup (withMeasure exp m) m with _ | series
    · simp [appendMeasure, hfn, hlk] at h
    · rcases hn : nth row jm.fst with _ | cell
      · simp [appendMeasure, hfn, hlk, hn] at h
      · rcases hrn : read_number cell with _ | v
        · simp [appendMeasure, hfn, hlk, hn, hrn] at h
        · simp only [appendMeasure, hfn, hlk, hn, hrn,
            Option.some.injEq] at h
          rw [← h]
          have hwm : expKeysOk header (withMeasure exp m) :=
            withMeasure_expKeysOk header exp m jm.snd hname hfn hok
          refine ⟨keysNodup_set _ _ _ hwm.1, ?_⟩
          intro p hp
          rcases mem_alist_set _ _ _ _ hp with rfl | hp1
          · exact ⟨jm.snd, hname, hfn⟩
          · exact hwm.2 p hp1

theorem appendRowMeasures_expKeysOk (header row : List String)
    (jms : List (Nat × String))
    (hjms : ∀ q ∈ jms, Prod.snd q ∈ header.drop 2) :
    ∀ exp exp1, appendRowMeasures row exp jms = some exp1 →
      expKeysOk header exp → expKeysOk header exp1 := by
  induction jms with
  | nil =>
    intro exp exp1 h hok
    simp only [appendRowMeasures, Option.some.injEq] at h
    rwa [← h]
  | cons a rest ih =>
    intro exp exp1 h hok
    rcases ha : appendMeasure row exp a with _ | e1
    · simp [appendRowMeasures, ha] at h
    · simp only [appendRowMeasures, ha] at h
      exact ih (fun q hq => hjms q (List.mem_cons_of_mem _ hq)) e1 exp1 h
        (appendMeasure_expKeysOk header row exp e1 a
          (hjms a (List.mem_cons_self _ _)) ha hok)

theorem eqLengths_of_sizes (header : List String) (exp : Experiment)
    (sizes : List Nat) (hok : expKeysOk header exp)
    (hms : measureSizes exp (header.drop 2) = some sizes)
    (hsz : sizesOk sizes = true) : eqLengths exp := by
  intro p hp q hq
  obtain ⟨np, hnp, hfnp⟩ := hok.2 p hp
  obtain ⟨nq, hnq, hfnq⟩ := hok.2 q hq
  obtain ⟨mp, sp, h1p, h2p, h3p⟩ := measureSizes_mem exp _ sizes hms np hnp
  obtain ⟨mq, sq, h1q, h2q, h3q⟩ := measureSizes_mem exp _ sizes hms nq hnq
  rw [hfnp] at h1p
  rw [hfnq] at h1q
  rw [← Option.some.inj h1p] at h2p
  rw [← Option.some.inj h1q] at h2q
  have hlkp := keysNodup_lookup exp hok.1 (Prod.fst p) (Prod.snd p)
    (by simpa using hp)
  have hlkq := keysNodup_lookup exp hok.1 (Prod.fst q) (Prod.snd q)
    (by simpa using hq)
  rw [hlkp] at h2p
  rw [hlkq] at h2q
  rw [← Option.some.inj h2p] at h3p
  rw [← Option.some.inj h2q] at h3q
  exact sizesOk_all_eq sizes hsz _ h3p _ h3q

theorem processDataRow_dataOk (fileBase : String) (header : List String)
    (data : ResultSet) (row : List String) (gname : String) (d1 : ResultSet)
    (h : processDataRow fileBase header data row gname = some d1)
    (hok : dataOk header data) : dataOk header d1 := by
  have hok1 : dataOk header (ensureGroup fileBase data gname) := by
    unfold ensureGroup
    by_cases hg : (alist_lookup data gname).isSome
    · rw [if_pos hg]; exact hok
    · rw [if_neg hg]
      intro g hg1 e he
      rcases mem_alist_set _ _ _ _ hg1 with rfl | hmem
      · simp at he
      · exact hok g hmem e he
  obtain ⟨gd, hgd⟩ := ensureGroup_lookup fileBase data gname
  have hgdmem : (gname, gd) ∈ ensureGroup fileBase data gname :=
    alist_lookup_mem _ _ _ hgd
  have HE : ∀ e ∈ gd.experiments,
      expKeysOk header (Prod.snd e) ∧ eqLengths (Prod.snd e) :=
    fun e he => hok1 (gname, gd) hgdmem e he
  rcases h1 : nth row 1 with _ | ename
  · simp [processDataRow, hgd, h1] at h
  · have HE1 : ∀ e ∈ ensureExperiment gd.experiments ename,
        expKeysOk header (Prod.snd e) ∧ eqLengths (Prod.snd e) := by
      unfold ensureExperiment
      by_cases hx : (alist_lookup gd.experiments ename).isSome
      · rw [if_pos hx]; exact HE
      · rw [if_neg hx]
        intro e he
        rcases mem_alist_set _ _ _ _ he with rfl | hmem
        · exact ⟨⟨trivial, by intro p hp; simp at hp⟩,
            by intro p hp; simp at hp⟩
        · exact HE e hmem
    obtain ⟨exp0, hexp0⟩ := ensureExperiment_lookup gd.experiments ename
    have hexp0mem : (ename, exp0) ∈ ensureExperiment gd.experiments ename :=
      alist_lookup_mem _ _ _ hexp0
    rcases hfold : appendRowMeasures row exp0
        (enumMeasures 2 (header.drop 2)) with _ | exp1
    · simp [processDataRow, hgd, h1, hexp0, hfold] at h
    · have hexp1 : expKeysOk header exp1 :=
        appendRowMeasures_expKeysOk header row _
          (fun q hq => mem_enumMeasures hq) exp0 exp1 hfold
          (HE1 (ename, exp0) hexp0mem).1
      rcases hms : measureSizes exp1 (header.drop 2) with _ | sizes
      · simp [processDataRow, hgd, h1, hexp0, hfold, hms] at h
      · by_cases hsz : sizesOk sizes = true
        · simp only [processDataRow, hgd, h1, hexp0, hfold, hms, hsz,
            if_true, Option.some.injEq] at h
          have heql : eqLengths exp1 :=
            eqLengths_of_sizes header exp1 sizes hexp1 hms hsz
          rw [← h]
          intro g hg e he
          rcases mem_alist_set _ _ _ _ hg with rfl | hmem
          · rcases mem_alist_set _ _ _ _ he with rfl | hmem1
            · exact ⟨hexp1, heql⟩
            · exact HE1 e hmem1
          · exact hok1 g hmem e he
        · simp [processDataRow, hgd, h1, hexp0, hfold, hms, hsz] at h

theorem processRow_dataOk (fileBase : String) (header : List String)
    (data : ResultSet) (row : List String) (d1 : ResultSet)
    (h : processRow fileBase header data row = some d1)
    (hok : dataOk header data) : dataOk header d1 := by
  rcases h0 : nth row 0 with _ | c0
  · simp [processRow, h0] at h
  · by_cases hn0 : Column.is_name c0
    · rcases h1 : nth row 1 with _ | c1
      · simp [processRow, h0, hn0, h1] at h
      · by_cases hn1 : Column.is_name c1
        · simp only [processRow, h0, hn0, hn1, h1, if_true,
            Option.some.injEq] at h
          rwa [← h]
        · simp only [processRow, h0, h1, hn0, hn1, if_true,
            Bool.false_eq_true, if_false] at h
          exact processDataRow_dataOk _ _ _ _ _ _ h hok
    · simp only [processRow, h0, hn0, Bool.false_eq_true, if_false] at h
      exact processDataRow_dataOk _ _ _ _ _ _ h hok

theorem foldRows_dataOk (fileBase : String) (header : List String)
    (body : List (List String)) :
    ∀ data data1, foldRows fileBase header data body = some data1 →
      dataOk header data → dataOk header data1 := by
  induction body with
  | nil =>
    intro d d1 h hok
    simp only [foldRows, Option.some.injEq] at h
    rwa [← h]
  | cons row rest ih =>
    intro d d1 h hok
    rcases hp : processRow fileBase header d row with _ | d2
    · simp [foldRows, hp] at h
    · simp only [foldRows, hp] at h
      exact ih d2 d1 h (processRow_dataOk _ _ _ _ _ hp hok)

/-- A row the loop always fails on makes the whole fold fail. -/
theorem foldRows_none (fileBase : String) (header : List String)
    (body : List (List String)) (r : List String) (hr : r ∈ body)
    (hf : ∀ data, processRow fileBase header data r = none) :
    ∀ data, foldRows fileBase header data body = none := by
  induction body with
  | nil => simp at hr
  | cons row rest ih =>
    intro data
    rcases List.mem_cons.1 hr with rfl | h1
    · simp [foldRows, hf data]
    · simp only [foldRows]
      cases hp : processRow fileBase header data row with
      | none => rfl
      | some d1 => exact ih h1 d1

theorem enumMeasures_mem_of_nth_header (header : List String) (j : Nat)
    (name : String) (hj : 2 ≤ j) (hname : nth header j = some name) :
    (j, name) ∈ enumMeasures 2 (header.drop 2) := by
  have harith : 2 + (j - 2) = j := by omega
  have h1 : nth (header.drop 2) (j - 2) = some name := by
    rw [nth_drop, harith]
    exact hname
  have h3 := enumMeasures_mem 2 h1
  rwa [harith] at h3

/-! ### Catalog lemmas -/

theorem Column_mem_members : ∀ m : Column, m ∈ Column.members := by decide

theorem lowerEqStr_of_both (a b label : String)
    (ha : lowerEqStr a label = true) (hb : lowerEqStr b label = true) :
    lowerEqStr a b = true := by
  unfold lowerEqStr at ha hb ⊢
  rw [beq_iff_eq] at ha hb ⊢
  rw [ha, hb]

theorem Column_value_lower_inj : ∀ m1 m2 : Column,
    lowerEqStr m1.value m2.value = true → m1 = m2 := by decide

/-! ### Claim theorems -/

/-- C1: for every input `read_results` accepts, every experiment of every
group in the returned ResultSet has all its measure series of equal length;
the equal-length condition is checked after each data row (`sizesOk` of the
`measureSizes`) and a violating row yields `none` (the parse aborts), as the
`none`-propagation of `processDataRow` shows. -/
theorem C1_series_lengths_equal (fileBase : String)
    (rows : List (List String)) (data : ResultSet)
    (h : read_results fileBase rows = some data) :
    ∀ g ∈ data, ∀ e ∈ (Prod.snd g).experiments, eqLengths (Prod.snd e) := by
  cases rows with
  | nil =>
    simp only [read_results, Option.some.injEq] at h
    rw [← h]
    intro g hg
    exact absurd hg (List.not_mem_nil g)
  | cons header body =>
    simp only [read_results] at h
    have hok := foldRows_dataOk fileBase header body [] data h
      (by intro g hg; exact absurd hg (List.not_mem_nil g))
    intro g hg e he
    exact (hok g hg e he).2

theorem C1_witness :
    read_results "demo.csv" demoRows = some demoParsed ∧
    (∀ g ∈ demoParsed, ∀ e ∈ (Prod.snd g).experiments,
      eqLengths (Prod.snd e)) :=
  ⟨by with_unfolding_all decide,
   C1_series_lengths_equal "demo.csv" demoRows demoParsed
     (by with_unfolding_all decide)⟩

/-- C2 (amended): interleaving header-repeat rows at arbitrary positions
AMONG THE DATA ROWS (i.e. after the header row) leaves the parse unchanged;
the original claim fails for insertion before the header, since the inserted
row then becomes the header (see the counterexample). -/
theorem C2_header_repeat_rows_inert (fileBase : String)
    (header : List String) (body1 body2 : List (List String))
    (h : HRInterleave body1 body2) :
    read_results fileBase (header :: body2) =
      read_results fileBase (header :: body1) := by
  simp only [read_results]
  exact foldRows_interleave fileBase header h []

theorem C2_witness :
    HRInterleave demoBody (hrRow :: demoBody) ∧
    read_results "demo.csv" (demoHdr :: (hrRow :: demoBody)) =
      read_results "demo.csv" (demoHdr :: demoBody) :=
  ⟨HRInterleave.put hrRow (by decide) (HRInterleave_refl demoBody),
   C2_header_repeat_rows_inert "demo.csv" demoHdr demoBody
     (hrRow :: demoBody)
     (HRInterleave.put hrRow (by decide) (HRInterleave_refl demoBody))⟩

/-- C2 counterexample: inserting the header-repeat row `["Baseline",
"Baseline"]` at position 0 of the input makes it the header, so the parse
differs from the parse of the input with that row removed. -/
theorem C2_counterexample :
    isHeaderRepeat hrRow = true ∧
    read_results "demo.csv" (hrRow :: demoRows) ≠
      read_results "demo.csv" demoRows := by
  with_unfolding_all decide

/-- C3: the end-to-end example — parsing the five-row input yields exactly
one group G1 with exactly two experiments, and aggregating Baseline yields
sizes [10, 20], labels [ExpA, ExpB], values [[1.0, 1.0], [2.0, 2.0]]. -/
theorem C3_end_to_end :
    read_results "demo.csv" demoRows = some demoParsed ∧
    demoParsed = [("G1", ⟨"demo.csv", demoExperiments⟩)] ∧
    demoExperiments.length = 2 ∧
    collect_experiments "G1" demoExperiments Column.baseline =
      some demoAgg ∧
    demoAgg = ⟨[Value.intV 10, Value.intV 20], ["ExpA", "ExpB"],
      [[Value.floatV 1, Value.floatV 1],
       [Value.floatV 2, Value.floatV 2]]⟩ := by
  with_unfolding_all decide

/-- C4 (amended): when `collect_experiments` returns, `len(labels) =
len(values)` and `len(sizes) = len(values[0])` hold (the two final asserts),
and each `values[i]` was length-checked against ITS OWN experiment's
problem-space series; but `len(sizes) = len(values[i])` for `i > 0` is NOT
guaranteed: experiments with different problem-space lengths produce a
returned aggregate violating it (see the counterexample). -/
theorem C4_aggregate_checked_invariants (group_name : String)
    (experiments : List (String × Experiment)) (measure : Column)
    (agg : Aggregated)
    (h : collect_experiments group_name experiments measure = some agg) :
    agg.experiments.length = agg.results.length ∧
    ∃ r0, agg.results.head? = some r0 ∧ agg.sizes.length = r0.length := by
  rcases hc : collectLoop measure ⟨none, [], []⟩ experiments with _ | st
  · simp [collect_experiments, hc] at h
  · rcases hs : st.sizes with _ | sizes
    · simp [collect_experiments, hc, hs] at h
    · rcases hf : st.results.head? with _ | first
      · simp [collect_experiments, hc, hs, hf] at h
      · by_cases hif : sizes.length = first.length ∧
          st.experiments.length = st.results.length
        · simp only [collect_experiments, hc, hs, hf, hif.1, hif.2,
            and_true, if_true, Option.some.injEq] at h
          rw [← h]
          exact ⟨hif.2, first, hf, hif.1⟩
        · simp [collect_experiments, hc, hs, hf, hif] at h

theorem C4_witness :
    collect_experiments "G1" demoExperiments Column.baseline =
      some demoAgg ∧
    (demoAgg.experiments.length = demoAgg.results.length ∧
     ∃ r0, demoAgg.results.head? = some r0 ∧
       demoAgg.sizes.length = r0.length) :=
  ⟨by with_unfolding_all decide,
   C4_aggregate_checked_invariants "G1" demoExperiments Column.baseline
     demoAgg (by with_unfolding_all decide)⟩

/-- C4 counterexample: on two internally-consistent experiments whose
problem-space series have lengths 2 and 3, `collect_experiments` RETURNS an
aggregate (does not raise) whose second value series has length 3 while
`sizes` has length 2, violating `len(sizes) = len(values[i])` for `i = 1`. -/
theorem C4_counterexample :
    collect_experiments "G" expsMismatch Column.baseline =
      some aggMismatch ∧
    aggMismatch.results.get? 1 =
      some [Value.floatV 2, Value.floatV 2, Value.floatV 2] ∧
    aggMismatch.sizes.length ≠
      ([Value.floatV 2, Value.floatV 2, Value.floatV 2] : List Value).length
    := by
  with_unfolding_all decide

/-- C5: numeric cell parsing tries the integer parse first and falls back to
floating point: "42" parses to the integer 42, "3.14" to the float 3.14
(the rational 157/50), and a cell that is neither ("N/A") fails the whole
parse fatally. -/
theorem C5_numeric_parsing :
    read_number "42" = some (Value.intV 42) ∧
    read_number "3.14" = some (Value.floatV (157 / 50)) ∧
    read_number "N/A" = none ∧
    read_results "demo.csv"
      [demoHdr, ["G1", "ExpA", "10", "N/A", "5.5"]] = none := by
  with_unfolding_all decide

/-- C6 (amended): an unknown column label at header index >= 2 makes the
parse fail on the FIRST data row (any non-header-repeat row); the original
claim fails for inputs with no data rows at all, where the parser returns an
empty ResultSet without touching the header labels (see counterexample). -/
theorem C6_unknown_header_label_fails (fileBase : String)
    (header : List String) (j : Nat) (name : String)
    (body : List (List String)) (hj : 2 ≤ j)
    (hname : nth header j = some name)
    (hunknown : Column.from_name name = none)
    (r : List String) (hr : r ∈ body) (hhr : isHeaderRepeat r = false) :
    read_results fileBase (header :: body) = none := by
  have hmem : (j, name) ∈ enumMeasures 2 (header.drop 2) :=
    enumMeasures_mem_of_nth_header header j name hj hname
  have hmf : ∀ exp, appendRowMeasures r exp
      (enumMeasures 2 (header.drop 2)) = none :=
    appendRowMeasures_none r _ (j, name) hmem
      (fun exp => appendMeasure_none_of_from_name r exp (j, name) hunknown)
  simp only [read_results]
  exact foldRows_none fileBase header body r hr
    (fun data => processRow_none_of_measures fileBase header data r hhr hmf)
    []

theorem C6_witness :
    (2 ≤ 2 ∧ nth bogusHdr 2 = some "Bogus Column" ∧
     Column.from_name "Bogus Column" = none ∧
     ["G1", "ExpA", "1"] ∈ [["G1", "ExpA", "1"]] ∧
     isHeaderRepeat ["G1", "ExpA", "1"] = false) ∧
    read_results "demo.csv" (bogusHdr :: [["G1", "ExpA", "1"]]) = none :=
  ⟨by decide,
   C6_unknown_header_label_fails "demo.csv" bogusHdr 2 "Bogus Column"
     [["G1", "ExpA", "1"]] (by decide) (by decide) (by decide)
     ["G1", "ExpA", "1"] (by decide) (by decide)⟩

/-- C6 counterexample: the header contains the unknown label "Bogus Column"
at index 2, yet the parser does NOT fail — with no data rows it returns the
empty ResultSet — contradicting the claim that every input with an unknown
header label fails. -/
theorem C6_counterexample :
    Column.from_name "Bogus Column" = none ∧
    read_results "demo.csv" [bogusHdr] = some [] := by decide

/-- C7: a non-header-repeat (data) row with fewer columns than the header
makes the whole parse fail (no ResultSet), whatever the rest of the input;
equivalently, every data row of a successfully parsed input has at least as
many columns as the header. -/
theorem C7_short_data_row_fails (fileBase : String) (header : List String)
    (body : List (List String)) (r : List String) (hr : r ∈ body)
    (hhr : isHeaderRepeat r = false) (hshort : r.length < header.length) :
    read_results fileBase (header :: body) = none := by
  by_cases h2 : r.length < 2
  · simp only [read_results]
    exact foldRows_none fileBase header body r hr
      (fun data => processRow_none_of_short2 fileBase header data r h2) []
  · have hhl : 3 ≤ header.length := by omega
    obtain ⟨name, hname⟩ := nth_lt header (header.length - 1) (by omega)
    have hmem : (header.length - 1, name) ∈
        enumMeasures 2 (header.drop 2) :=
      enumMeasures_mem_of_nth_header header (header.length - 1) name
        (by omega) hname
    have hnone : nth r (header.length - 1) = none :=
      nth_eq_none _ _ (by omega)
    have hmf : ∀ exp, appendRowMeasures r exp
        (enumMeasures 2 (header.drop 2)) = none :=
      appendRowMeasures_none r _ (header.length - 1, name) hmem
        (fun exp => appendMeasure_none_of_nth r exp _ hnone)
    simp only [read_results]
    exact foldRows_none fileBase header body r hr
      (fun data =>
        processRow_none_of_measures fileBase header data r hhr hmf) []

theorem C7_witness :
    (["G1", "ExpA", "10", "1.0"] ∈ [["G1", "ExpA", "10", "1.0"]] ∧
     isHeaderRepeat ["G1", "ExpA", "10", "1.0"] = false ∧
     (["G1", "ExpA", "10", "1.0"] : List String).length < demoHdr.length) ∧
    read_results "demo.csv" (demoHdr :: [["G1", "ExpA", "10", "1.0"]]) =
      none :=
  ⟨by decide,
   C7_short_data_row_fails "demo.csv" demoHdr [["G1", "ExpA", "10", "1.0"]]
     ["G1", "ExpA", "10", "1.0"] (by decide) (by decide) (by decide)⟩

/-- C8: catalog lookup — `from_name` returns the unique measure whose
display label matches the given label case-insensitively and `none` when no
label matches; `is_name` is true exactly when `from_name` returns a
measure.  (Both are pure functions of the label.) -/
theorem C8_catalog_lookup (label : String) :
    (∀ m : Column, lowerEqStr m.value label = true →
      Column.from_name label = some m) ∧
    ((∀ m : Column, lowerEqStr m.value label = false) →
      Column.from_name label = none) ∧
    Column.is_name label = (Column.from_name label).isSome := by
  refine ⟨?_, ?_, ?_⟩
  · intro m hm
    have hsome : (Column.members.find?
        (fun member => lowerEqStr member.value label)).isSome := by
      rw [List.find?_isSome]
      exact ⟨m, Column_mem_members m, hm⟩
    obtain ⟨m1, hm1⟩ := Option.isSome_iff_exists.1 hsome
    have hp1 := List.find?_some hm1
    have : m1 = m :=
      Column_value_lower_inj m1 m (lowerEqStr_of_both _ _ _ hp1 hm)
    rw [Column.from_name, hm1, this]
  · intro hall
    rw [Column.from_name, List.find?_eq_none]
    intro m hmem
    simp [hall m]
  · rw [Column.is_name, Column.from_name]
    by_cases h : ∃ m, m ∈ Column.members ∧
        lowerEqStr m.value label = true
    · rw [(List.any_eq_true).2 h]
      have hsome : (Column.members.find?
          (fun member => lowerEqStr member.value label)).isSome := by
        rw [List.find?_isSome]
        obtain ⟨m, h1, h2⟩ := h
        exact ⟨m, h1, h2⟩
      obtain ⟨m1, hm1⟩ := Option.isSome_iff_exists.1 hsome
      rw [hm1]
      rfl
    · have h1 : Column.members.any
          (fun member => lowerEqStr member.value label) = false := by
        rw [← Bool.not_eq_true, List.any_eq_true]
        exact h
      have h2 : Column.members.find?
          (fun member => lowerEqStr member.value label) = none := by
        rw [List.find?_eq_none]
        intro m hm hcon
        exact h ⟨m, hm, hcon⟩
      rw [h1, h2]
      rfl

theorem C8_witness :
    Column.from_name "baseline" = some Column.baseline ∧
    Column.from_name "MEAN (US)" = some Column.mean_time :=
  ⟨(C8_catalog_lookup "baseline").1 Column.baseline (by decide),
   (C8_catalog_lookup "MEAN (US)").1 Column.mean_time (by decide)⟩

/-- C9: a non-header row with fewer than two fields (for example the empty
row a blank line yields) always aborts the parse — it is never tolerated or
skipped, since column 0 and column 1 are read before any guard. -/
theorem C9_short_rows_fail (fileBase : String) (header : List String)
    (body : List (List String)) (r : List String) (hr : r ∈ body)
    (hshort : r.length < 2) :
    read_results fileBase (header :: body) = none := by
  simp only [read_results]
  exact foldRows_none fileBase header body r hr
    (fun data => processRow_none_of_short2 fileBase header data r hshort) []

theorem C9_witness :
    (([] : List String) ∈ [["G1", "ExpA", "10", "1.0", "5.5"],
      ([] : List String)] ∧
     ([] : List String).length < 2) ∧
    read_results "demo.csv"
      (demoHdr :: [["G1", "ExpA", "10", "1.0", "5.5"],
        ([] : List String)]) = none :=
  ⟨by decide,
   C9_short_rows_fail "demo.csv" demoHdr
     [["G1", "ExpA", "10", "1.0", "5.5"], ([] : List String)]
     ([] : List String) (by decide) (by decide)⟩

/-- C10: the aggregator requires a non-empty experiments mapping: on an
empty mapping the loop never populates `sizes`, so reading `data['sizes']`
raises (modelled as `none`) instead of returning an empty aggregate. -/
theorem C10_aggregate_empty_raises (group_name : String) (measure : Column) :
    collect_experiments group_name [] measure = none := rfl

end Celero
